import Mathlib

/-!
Verification of the JAWA concurrent web crawler core (src/web_crawler.cpp).

The C++ program consists of two classes:

- `URLQueue` — a mutex-guarded deduplicating FIFO queue of URL strings with
  a blocking `pop`, a `finish` shutdown signal, and a `size` snapshot.
- `WebCrawler` — owns a `URLQueue`, a worker-thread pool, an atomic
  pages-processed counter, and a regex-based link extractor.

Every public operation of `URLQueue` runs entirely under the single mutex
`mtx`, and the crawler's counter is a `std::atomic`, so each operation is an
indivisible step; the shallow embedding therefore models the concurrent
system as a state machine whose atomic transitions are exactly these
operations, interleaved in an arbitrary order.  A `pop` whose wait condition
`!urls.empty() || done` is false keeps the caller suspended; the embedding
reports this as the `blocked` outcome, which leaves the queue unchanged.

The curl fetch performed by `crawlPage` is an external effect; it is
modelled as an injected function `fetch : String → Option String` returning
the page body on success (`CURLE_OK`) and `none` on any failure.  Console
output (the `printMutex`-guarded `std::cout` lines) is modelled as a list of
emitted lines.
-/

/-- State of the C++ `URLQueue`: the FIFO `urls` queue (front = head of the
list, `push` appends at the back), the `seen` set (`std::unordered_set`,
modelled as the list of inserted elements, newest first), and the `done`
shutdown flag. -/
structure URLQueue where
  urls : List String
  seen : List String
  done : Bool
deriving DecidableEq

/-- Outcome of one `URLQueue::pop` call: `delivered url` models `return true`
with the front URL written to the out-parameter, `closedEmpty` models
`return false`, and `blocked` models the caller still suspended in
`cv.wait` because `!urls.empty() || done` is false. -/
inductive PopResult where
  | blocked : PopResult
  | closedEmpty : PopResult
  | delivered : String → PopResult
deriving DecidableEq

/-- `URLQueue::push` (src/web_crawler.cpp:48-55): under the mutex, if the URL
is not in `seen`, enqueue it and insert it into `seen`.  The whole body is
one critical section, so membership test and insertion form one atomic
step.  Note the C++ code does not consult `done` here. -/
def URLQueue.push (s : URLQueue) (url : String) : URLQueue :=
  if url ∈ s.seen then s
  else { s with urls := s.urls ++ [url], seen := url :: s.seen }

/-- `URLQueue::pop` (src/web_crawler.cpp:58-65): wait until
`!urls.empty() || done`; then if `urls.empty() && done` return `false`,
otherwise remove and return the front URL. -/
def URLQueue.pop (s : URLQueue) : URLQueue × PopResult :=
  match s.urls with
  | [] => if s.done then (s, PopResult.closedEmpty) else (s, PopResult.blocked)
  | url :: rest => ({ s with urls := rest }, PopResult.delivered url)

/-- `URLQueue::finish` (src/web_crawler.cpp:68-72): set `done` and wake all
waiters (the wake itself has no state beyond re-running the wait condition). -/
def URLQueue.finish (s : URLQueue) : URLQueue :=
  { s with done := true }

/-- `URLQueue::size` (src/web_crawler.cpp:75-78): snapshot of `urls.size()`. -/
def URLQueue.size (s : URLQueue) : Nat :=
  s.urls.length

/-- The initial `URLQueue` state given by the C++ member initializers:
empty queue, empty seen set, `done = false`. -/
def URLQueue.init : URLQueue :=
  { urls := [], seen := [], done := false }

/-- One atomic operation on the queue, as issued by an arbitrary thread of an
arbitrary interleaving. -/
inductive QOp where
  | push : String → QOp
  | pop : QOp
  | finish : QOp
deriving DecidableEq

/-- Run a sequence of atomic queue operations from state `s`; returns the
final state together with the list of URLs delivered by the `pop` steps, in
delivery order.  A `pop` finding the wait condition false stays blocked and
delivers nothing. -/
def URLQueue.runOps (s : URLQueue) : List QOp → URLQueue × List String
  | [] => (s, [])
  | QOp.push u :: rest => URLQueue.runOps (URLQueue.push s u) rest
  | QOp.finish :: rest => URLQueue.runOps (URLQueue.finish s) rest
  | QOp.pop :: rest =>
    match URLQueue.pop s with
    | (s2, PopResult.delivered u) =>
      let r := URLQueue.runOps s2 rest
      (r.1, u :: r.2)
    | (s2, _) => URLQueue.runOps s2 rest

/-- Iterate `URLQueue.pop` `n` times, collecting the outcomes in order. -/
def URLQueue.popN (s : URLQueue) : Nat → URLQueue × List PopResult
  | 0 => (s, [])
  | n + 1 =>
    let p := URLQueue.pop s
    let r := URLQueue.popN p.1 n
    (r.1, p.2 :: r.2)

/-- Invariant tying a queue state to the URLs `delivered` so far: no URL
occurs twice across past deliveries and the pending queue, and every such
URL has been recorded in `seen`. -/
def QInv (s : URLQueue) (delivered : List String) : Prop :=
  (delivered ++ s.urls).Nodup ∧ ∀ u, u ∈ delivered ++ s.urls → u ∈ s.seen

/-- The apostrophe character, one of the two quote delimiters accepted by the
regex character class in `extractLinks`. -/
def squote : Char := Char.ofNat 39

/-- Membership in the regex quote class: double quote or apostrophe. -/
def isQuoteChar (c : Char) : Bool := c = '"' || c = squote

/-- Tail of the regex pattern after `href=`: an opening quote, a nonempty
greedy run of non-quote characters (the capture group), and a closing quote
(either quote character, independently of the opener).  Returns the capture
and the remainder of the input after the closing quote.  Because the capture
class excludes both quote characters, the greedy run is exactly the maximal
non-quote run, and backtracking cannot produce any other split. -/
def matchQuoted (cs : List Char) : Option (List Char × List Char) :=
  match cs with
  | [] => none
  | q1 :: rest =>
    if isQuoteChar q1 then
      let cap := rest.takeWhile (fun c => !(isQuoteChar c))
      match rest.dropWhile (fun c => !(isQuoteChar c)) with
      | [] => none
      | q2 :: rest2 =>
        if cap.isEmpty then none
        else if isQuoteChar q2 then some (cap, rest2) else none
    else none

/-- Literal `href=` of the regex pattern: succeed exactly when the input
starts with it, returning the input with those five characters consumed. -/
def dropHref (cs : List Char) : Option (List Char) :=
  if ("href=".data).isPrefixOf cs then some (cs.drop 5) else none

/-- Backtracking loop of the greedy quantifier between `<a` and `href=` in
the pattern: the quantified class consumes `k` characters, all distinct from
a closing angle bracket, and the rest of the pattern must match afterwards.
Greediness means the largest viable `k` wins, so candidates are tried in
decreasing order `n, n-1, ..., 1` (the quantifier requires `k ≥ 1`). -/
def tryGap (cs : List Char) : Nat → Option (List Char × List Char)
  | 0 => none
  | n + 1 =>
    if (cs.take (n + 1)).all (fun c => c ≠ '>') then
      match dropHref (cs.drop (n + 1)) with
      | some afterHref =>
        match matchQuoted afterHref with
        | some r => some r
        | none => tryGap cs n
      | none => tryGap cs n
    else tryGap cs n

/-- Attempt to match the whole anchor regex of `extractLinks`
(src/web_crawler.cpp:111) at the start of `cs`: literal `<a`, then the
greedy gap, `href=`, and the quoted capture.  On success returns the capture
(the link target) and the input remaining after the match. -/
def matchAnchorAt (cs : List Char) : Option (List Char × List Char) :=
  match cs with
  | '<' :: 'a' :: rest => tryGap rest rest.length
  | _ => none

/-- Scan of `std::sregex_iterator` (src/web_crawler.cpp:113-117): find the
leftmost match, record its capture group, and resume scanning right after
the matched text.  Each step consumes at least one character, so a fuel of
the input length suffices; `scanMatches` below instantiates it so. -/
def scanMatchesF : Nat → List Char → List (List Char)
  | 0, _ => []
  | _ + 1, [] => []
  | n + 1, c :: rest =>
    match matchAnchorAt (c :: rest) with
    | some (cap, after) => cap :: scanMatchesF n after
    | none => scanMatchesF n rest

/-- All capture groups of the anchor regex over the input, in match order. -/
def scanMatches (cs : List Char) : List (List Char) :=
  scanMatchesF cs.length cs

/-- `std::string::find(c, start)` restricted to a single character: the
least index `≥ start` at which `c` occurs, if any. -/
def findCharFrom : List Char → Char → Nat → Option Nat
  | [], _, _ => none
  | c :: rest, t, 0 =>
    if c = t then some 0 else Option.map (fun i => i + 1) (findCharFrom rest t 0)
  | _ :: rest, t, n + 1 => Option.map (fun i => i + 1) (findCharFrom rest t n)

/-- The domain computation of `extractLinks` (src/web_crawler.cpp:123-124):
`pos = baseUrl.find('/', 8)`; the domain is `baseUrl.substr(0, pos)` when a
slash is found, otherwise all of `baseUrl`. -/
def domainOf (baseUrl : String) : String :=
  match findCharFrom baseUrl.data '/' 8 with
  | some pos => String.mk (baseUrl.data.take pos)
  | none => baseUrl

/-- C++ `std::string::starts_with`: `startsWithL s p` holds when `p` is a
prefix of `s`. -/
def startsWithL (s p : String) : Bool :=
  (p.data).isPrefixOf s.data

/-- Loop body of `extractLinks` (src/web_crawler.cpp:116-127): a target
starting with `http` is appended as-is; otherwise a target starting with `/`
is appended as `domain + link`; any other target is skipped. -/
def linkStep (baseUrl : String) (links : List String) (link : String) : List String :=
  if startsWithL link "http" then links ++ [link]
  else if startsWithL link "/" then links ++ [domainOf baseUrl ++ link]
  else links

/-- `WebCrawler::extractLinks` (src/web_crawler.cpp:109-129): run the regex
scan over the body and fold the loop body over the captured targets. -/
def WebCrawler.extractLinks (html baseUrl : String) : List String :=
  ((scanMatches html.data).map String.mk).foldl (linkStep baseUrl) []

/-- The emission rule in the words of the specification (section 4.3): a
target beginning with the HTTP scheme prefix is emitted as-is, a target
beginning with a path separator is emitted as the base URL's domain prefix
concatenated with the target, and every other target is dropped. -/
def specEmit (baseUrl link : String) : Option String :=
  if startsWithL link "http" then some link
  else if startsWithL link "/" then some (domainOf baseUrl ++ link)
  else none

/-- State of the C++ `WebCrawler`: the owned queue, the atomic `running`
flag, the atomic `pagesProcessed` counter, the console `output` lines, the
number of live `workers` threads, and the fixed `threadCount`. -/
structure WebCrawler where
  queue : URLQueue
  running : Bool
  pagesProcessed : Nat
  output : List String
  workers : Nat
  threadCount : Nat
deriving DecidableEq

/-- A fresh `WebCrawler(threads)` as built by the constructor: default queue,
not running, zero pages, no output, no worker threads. -/
def WebCrawler.mkCrawler (threads : Nat) : WebCrawler :=
  { queue := URLQueue.init, running := false, pagesProcessed := 0,
    output := [], workers := 0, threadCount := threads }

/-- `WebCrawler::crawlPage` (src/web_crawler.cpp:132-159) with the curl
transfer abstracted as `fetch`: on failure (`res ≠ CURLE_OK`) nothing
happens; on success print `Crawled: url`, increment `pagesProcessed`, and
push every link of `extractLinks(body, url)` into the queue in order. -/
def WebCrawler.crawlPage (fetch : String → Option String) (c : WebCrawler)
    (url : String) : WebCrawler :=
  match fetch url with
  | none => c
  | some body =>
    { c with
      output := c.output ++ ["Crawled: " ++ url],
      pagesProcessed := c.pagesProcessed + 1,
      queue := (WebCrawler.extractLinks body url).foldl URLQueue.push c.queue }

/-- Why a worker's loop ended: `notRunning` models the `running` check of
`while (running && queue.pop(url))` reading `false` (the pop is then not
even evaluated, by short-circuiting), `queueClosed` models `queue.pop`
returning `false`. -/
inductive ExitReason where
  | notRunning : ExitReason
  | queueClosed : ExitReason
deriving DecidableEq

/-- `WebCrawler::worker` (src/web_crawler.cpp:162-172): the loop
`while (running && queue.pop(url)) crawlPage(url)`.  `fuel` bounds the
number of loop iterations examined; the result pairs the state reached with
`some reason` when the loop exited within the fuel, and `none` when the
worker is still looping or blocked in `pop`.  The politeness sleep and the
catch clause have no state effect (`crawlPage` is total in the model). -/
def WebCrawler.worker (fetch : String → Option String) :
    Nat → WebCrawler → WebCrawler × Option ExitReason
  | 0, c => (c, none)
  | n + 1, c =>
    if c.running then
      match URLQueue.pop c.queue with
      | (q2, PopResult.delivered url) =>
        WebCrawler.worker fetch n (WebCrawler.crawlPage fetch { c with queue := q2 } url)
      | (_, PopResult.closedEmpty) => (c, some ExitReason.queueClosed)
      | (_, PopResult.blocked) => WebCrawler.worker fetch n c
    else (c, some ExitReason.notRunning)

/-- `WebCrawler::start` (src/web_crawler.cpp:187-194): set `running`, push
the seed URL, and launch `threadCount` additional worker threads.  Nothing
here resets the queue. -/
def WebCrawler.start (c : WebCrawler) (startUrl : String) : WebCrawler :=
  { c with
    running := true,
    queue := URLQueue.push c.queue startUrl,
    workers := c.workers + c.threadCount }

/-- `WebCrawler::stop` (src/web_crawler.cpp:197-206): clear `running`, call
`queue.finish()`, join every worker thread, and clear the worker vector. -/
def WebCrawler.stop (c : WebCrawler) : WebCrawler :=
  { c with
    running := false,
    queue := URLQueue.finish c.queue,
    workers := 0 }

/-- `WebCrawler::getPagesProcessed` (src/web_crawler.cpp:209). -/
def WebCrawler.getPagesProcessed (c : WebCrawler) : Nat :=
  c.pagesProcessed

/-- `WebCrawler::getQueueSize` (src/web_crawler.cpp:210). -/
def WebCrawler.getQueueSize (c : WebCrawler) : Nat :=
  URLQueue.size c.queue

theorem URLQueue.pop_closedEmpty_iff (s : URLQueue) :
    (URLQueue.pop s).2 = PopResult.closedEmpty ↔ (s.urls = [] ∧ s.done = true) := by
  cases h : s.urls with
  | nil => cases hd : s.done <;> simp [URLQueue.pop, h, hd]
  | cons u rest => simp [URLQueue.pop, h]

theorem URLQueue.qinv_push {s : URLQueue} {acc : List String} (u : String)
    (h : QInv s acc) : QInv (URLQueue.push s u) acc := by
  by_cases hm : u ∈ s.seen
  · simpa [URLQueue.push, hm] using h
  · obtain ⟨h1, h2⟩ := h
    have hnew : u ∉ acc ++ s.urls := fun hu => hm (h2 u hu)
    have hna : u ∉ acc := fun hx => hnew (List.mem_append.mpr (Or.inl hx))
    have hnu : u ∉ s.urls := fun hx => hnew (List.mem_append.mpr (Or.inr hx))
    constructor
    · simp only [URLQueue.push, hm, if_false]
      have heq : acc ++ (s.urls ++ [u]) = (acc ++ s.urls) ++ [u] := by
        simp [List.append_assoc]
      rw [heq]
      have h1s := List.nodup_append.mp h1
      simp [List.nodup_append]
      exact ⟨h1s.1, ⟨h1s.2.1, hnu⟩, h1s.2.2, hna⟩
    · intro v hv
      simp only [URLQueue.push, hm, if_false] at hv ⊢
      rcases List.mem_append.mp hv with hva | hvb
      · exact List.mem_cons_of_mem u (h2 v (List.mem_append.mpr (Or.inl hva)))
      · rcases List.mem_append.mp hvb with hvc | hvd
        · exact List.mem_cons_of_mem u (h2 v (List.mem_append.mpr (Or.inr hvc)))
        · simp at hvd
          simp [hvd]

theorem URLQueue.runOps_inv (ops : List QOp) :
    ∀ (s : URLQueue) (acc : List String), QInv s acc →
      QInv (URLQueue.runOps s ops).1 (acc ++ (URLQueue.runOps s ops).2) := by
  induction ops with
  | nil => intro s acc h; simpa [URLQueue.runOps] using h
  | cons op rest ih =>
    intro s acc h
    cases op with
    | push u =>
      simp only [URLQueue.runOps]
      exact ih _ _ (URLQueue.qinv_push u h)
    | finish =>
      simp only [URLQueue.runOps]
      have hf : QInv (URLQueue.finish s) acc := by
        obtain ⟨h1, h2⟩ := h
        exact ⟨h1, h2⟩
      exact ih _ _ hf
    | pop =>
      cases hu : s.urls with
      | nil =>
        cases hd : s.done
        · have hp : URLQueue.pop s = (s, PopResult.blocked) := by
            simp [URLQueue.pop, hu, hd]
          simp only [URLQueue.runOps, hp]
          exact ih _ _ h
        · have hp : URLQueue.pop s = (s, PopResult.closedEmpty) := by
            simp [URLQueue.pop, hu, hd]
          simp only [URLQueue.runOps, hp]
          exact ih _ _ h
      | cons u rest2 =>
        have hp : URLQueue.pop s = ({ s with urls := rest2 }, PopResult.delivered u) := by
          simp [URLQueue.pop, hu]
        simp only [URLQueue.runOps, hp]
        have hstep : QInv { s with urls := rest2 } (acc ++ [u]) := by
          obtain ⟨h1, h2⟩ := h
          rw [hu] at h1 h2
          have hrw : acc ++ u :: rest2 = (acc ++ [u]) ++ rest2 := by simp
          rw [hrw] at h1 h2
          exact ⟨h1, fun v hv => h2 v hv⟩
        have := ih _ _ hstep
        simpa using this

/-- C1: along every interleaving of atomic `push`, `pop` and `finish`
operations from the initial queue state, each distinct URL is delivered by
`pop` at most once (the delivered list has no duplicate), and every URL
still pending is recorded in the `seen` (discovered) set — the membership
test and the insertion of `push` happen inside the one critical section the
mutex provides, which the model renders by making `push` a single atomic
transition. -/
theorem frontier_dedup_invariant : ∀ ops : List QOp,
    ((URLQueue.runOps URLQueue.init ops).2).Nodup
    ∧ ∀ u, u ∈ (URLQueue.runOps URLQueue.init ops).1.urls →
        u ∈ (URLQueue.runOps URLQueue.init ops).1.seen := by
  intro ops
  have h0 : QInv URLQueue.init [] := by
    constructor
    · simp [URLQueue.init]
    · intro u hu; simp [URLQueue.init] at hu
  have h := URLQueue.runOps_inv ops URLQueue.init [] h0
  simp only [List.nil_append] at h
  obtain ⟨h1, h2⟩ := h
  constructor
  · exact h1.of_append_left
  · intro u hu
    exact h2 u (List.mem_append.mpr (Or.inr hu))

/-- C1 witness: a concrete interleaving with a duplicate push; the delivered
list is duplicate-free and a pending URL is in the discovered set. -/
theorem frontier_dedup_invariant_witness :
    ((URLQueue.runOps URLQueue.init
        [QOp.push "http://a", QOp.push "http://a", QOp.push "http://b"]).2).Nodup
    ∧ "http://a" ∈ (URLQueue.runOps URLQueue.init
        [QOp.push "http://a", QOp.push "http://a", QOp.push "http://b"]).1.seen := by
  have h := frontier_dedup_invariant
    [QOp.push "http://a", QOp.push "http://a", QOp.push "http://b"]
  exact ⟨h.1, h.2 "http://a" (by decide)⟩

theorem URLQueue.popN_empty_done (seen : List String) :
    ∀ n, URLQueue.popN { urls := [], seen := seen, done := true } n
      = ({ urls := [], seen := seen, done := true },
         List.replicate n PopResult.closedEmpty) := by
  intro n
  induction n with
  | zero => simp [URLQueue.popN]
  | succ n ih =>
    simp [URLQueue.popN, URLQueue.pop, ih, List.replicate_succ]

theorem URLQueue.popN_drain :
    ∀ (urls seen : List String) (n : Nat),
      URLQueue.popN { urls := urls, seen := seen, done := true } (urls.length + n)
        = ({ urls := [], seen := seen, done := true },
           urls.map PopResult.delivered ++ List.replicate n PopResult.closedEmpty) := by
  intro urls
  induction urls with
  | nil => intro seen n; simpa using URLQueue.popN_empty_done seen n
  | cons u rest ih =>
    intro seen n
    have hlen : (u :: rest).length + n = (rest.length + n) + 1 := by
      simp [List.length_cons]
      omega
    rw [hlen]
    simp [URLQueue.popN, URLQueue.pop, ih seen n]

/-- C3: `finish` drains, it does not discard.  After `finish`, the first
`pending.length` pops deliver exactly the pending URLs, in FIFO order, each
with `ok = true`, and every later pop returns `ok = false` immediately (the
outcome is `closedEmpty`, never `blocked`, so a caller never blocks again);
moreover a pop returns `ok = false` precisely when the queue is empty and
closed. -/
theorem shutdown_drains_fifo :
    (∀ (s : URLQueue) (n : Nat),
      URLQueue.popN (URLQueue.finish s) (s.urls.length + n)
        = ({ urls := [], seen := s.seen, done := true },
           s.urls.map PopResult.delivered ++ List.replicate n PopResult.closedEmpty))
    ∧ (∀ t : URLQueue,
        (URLQueue.pop t).2 = PopResult.closedEmpty ↔ (t.urls = [] ∧ t.done = true)) := by
  constructor
  · intro s n
    obtain ⟨urls, seen, done⟩ := s
    exact URLQueue.popN_drain urls seen n
  · exact URLQueue.pop_closedEmpty_iff

/-- C3 witness: a queue closed with two remaining URLs delivers both in
order, then answers `ok = false` twice without blocking. -/
theorem shutdown_drains_fifo_witness :
    URLQueue.popN
        (URLQueue.finish { urls := ["http://a", "http://b"], seen := ["http://b", "http://a"], done := false })
        (2 + 2)
      = ({ urls := [], seen := ["http://b", "http://a"], done := true },
         [PopResult.delivered "http://a", PopResult.delivered "http://b",
          PopResult.closedEmpty, PopResult.closedEmpty]) := by
  have h := shutdown_drains_fifo.1
    { urls := ["http://a", "http://b"], seen := ["http://b", "http://a"], done := false } 2
  exact h

/-- C9: `finish` is idempotent on the queue state, and `stop` is idempotent
on the crawler state; equality of the full states implies that every
subsequent `pop`, `push` and `size` observation agrees as well. -/
theorem close_idempotent :
    (∀ s : URLQueue, URLQueue.finish (URLQueue.finish s) = URLQueue.finish s)
    ∧ (∀ c : WebCrawler, WebCrawler.stop (WebCrawler.stop c) = WebCrawler.stop c) := by
  constructor
  · intro s; rfl
  · intro c; rfl

/-- C2 counterexample: `URLQueue::push` never consults the `done` flag, so a
URL pushed after `finish` on a closed, drained queue is enqueued and the
very next `pop` delivers it with `ok = true` — the claim that a push on a
closed frontier is never subsequently returned by `pop` is false. -/
theorem push_after_finish_cex :
    (URLQueue.pop (URLQueue.push (URLQueue.finish URLQueue.init) "http://a")).2
      = PopResult.delivered "http://a" := by
  decide

/-- C2 amended: on a closed queue, `push` behaves exactly as on an open one
(it ignores `done`): a URL already discovered is silently dropped (full
no-op, no error), while an undiscovered URL is still enqueued at the back —
and on an otherwise empty closed queue the next `pop` delivers it.  The
`done` flag itself is never changed by `push`. -/
theorem push_after_finish_amended :
    ∀ (s : URLQueue) (url : String), s.done = true →
      ((URLQueue.push s url).done = true)
      ∧ (url ∈ s.seen → URLQueue.push s url = s)
      ∧ (url ∉ s.seen → (URLQueue.push s url).urls = s.urls ++ [url])
      ∧ (url ∉ s.seen → s.urls = [] →
          (URLQueue.pop (URLQueue.push s url)).2 = PopResult.delivered url) := by
  intro s url hdone
  refine ⟨?_, ?_, ?_, ?_⟩
  · by_cases h : url ∈ s.seen <;> simp [URLQueue.push, h, hdone]
  · intro h; simp [URLQueue.push, h]
  · intro h; simp [URLQueue.push, h]
  · intro h hurls
    simp [URLQueue.push, h, hurls, URLQueue.pop]

/-- C2 witness: the amended statement applied to the closed initial queue
and a fresh URL. -/
theorem push_after_finish_amended_witness :
    ((URLQueue.push (URLQueue.finish URLQueue.init) "http://w").done = true)
    ∧ ((URLQueue.push (URLQueue.finish URLQueue.init) "http://w").urls
        = (URLQueue.finish URLQueue.init).urls ++ ["http://w"]) := by
  have h := push_after_finish_amended (URLQueue.finish URLQueue.init) "http://w" rfl
  exact ⟨h.1, h.2.2.1 (by decide)⟩

/-- Crawler state for the C4 counterexample: the `running` flag is already
false while a URL is still pending in the open (not yet closed) queue. -/
def stoppedFlagCrawler : WebCrawler :=
  { queue := { urls := ["http://a"], seen := ["http://a"], done := false },
    running := false, pagesProcessed := 0, output := [], workers := 1,
    threadCount := 1 }

/-- C4 counterexample: with `running` false and the frontier non-empty and
not closed, the worker loop exits at once with reason `notRunning`; the
short-circuit in `while (running && queue.pop(url))` never even calls
`pop`, so the loop does not exit only when `pop` returns `ok = false`. -/
theorem worker_exit_cex :
    WebCrawler.worker (fun _ => none) 1 stoppedFlagCrawler
      = (stoppedFlagCrawler, some ExitReason.notRunning)
    ∧ stoppedFlagCrawler.queue.urls ≠ []
    ∧ stoppedFlagCrawler.queue.done = false := by
  refine ⟨by decide, by decide, by decide⟩

/-- C4 amended: a worker's loop exits either because `pop` returned
`ok = false` — and then the frontier really is exhausted and closed — or
because the `running` flag was false at the top of the loop (the
short-circuit before `pop`); once `stop()` has run, `running` is false, so
every worker exits at its very next loop check, and `stop` joins and clears
the worker vector, so no worker thread remains alive after it returns. -/
theorem worker_exit_amended :
    (∀ (fetch : String → Option String) (n : Nat) (c c2 : WebCrawler) (r : ExitReason),
        WebCrawler.worker fetch n c = (c2, some r) →
          (r = ExitReason.queueClosed → c2.queue.urls = [] ∧ c2.queue.done = true)
          ∧ (r = ExitReason.notRunning → c2.running = false))
    ∧ (∀ (fetch : String → Option String) (n : Nat) (c : WebCrawler),
        WebCrawler.worker fetch (n + 1) (WebCrawler.stop c)
          = (WebCrawler.stop c, some ExitReason.notRunning))
    ∧ (∀ c : WebCrawler, (WebCrawler.stop c).workers = 0) := by
  refine ⟨?_, ?_, ?_⟩
  · intro fetch n
    induction n with
    | zero =>
      intro c c2 r h
      simp [WebCrawler.worker] at h
    | succ n ih =>
      intro c c2 r h
      by_cases hr : c.running
      · simp only [WebCrawler.worker, hr, if_true] at h
        rcases hp : URLQueue.pop c.queue with ⟨q2, pr⟩
        rw [hp] at h
        cases pr with
        | delivered u =>
          exact ih _ _ _ h
        | closedEmpty =>
          simp only [Prod.mk.injEq, Option.some.injEq] at h
          obtain ⟨rfl, rfl⟩ := h
          have hce : (URLQueue.pop c.queue).2 = PopResult.closedEmpty := by
            rw [hp]
          have := (URLQueue.pop_closedEmpty_iff c.queue).mp hce
          constructor
          · intro _; exact this
          · intro hbad; cases hbad
        | blocked =>
          exact ih _ _ _ h
      · simp [WebCrawler.worker, hr] at h
        obtain ⟨rfl, rfl⟩ := h
        constructor
        · intro hbad; cases hbad
        · intro _
          simpa using hr
  · intro fetch n c
    simp [WebCrawler.worker, WebCrawler.stop]
  · intro c; rfl

/-- C4 witness: the amended theorem applied to a concrete stopped crawler —
the worker exits with reason `notRunning`, the exited state indeed has
`running = false`, and no worker thread remains after `stop`. -/
theorem worker_exit_amended_witness :
    ((WebCrawler.stop (WebCrawler.mkCrawler 2)).workers = 0)
    ∧ (WebCrawler.stop (WebCrawler.mkCrawler 2)).running = false := by
  have h2 := worker_exit_amended.2.1 (fun _ => none) 0 (WebCrawler.mkCrawler 2)
  have h3 := (worker_exit_amended.1 (fun _ => none) 1
    (WebCrawler.stop (WebCrawler.mkCrawler 2))
    (WebCrawler.stop (WebCrawler.mkCrawler 2)) ExitReason.notRunning h2).2 rfl
  exact ⟨worker_exit_amended.2.2 (WebCrawler.mkCrawler 2), h3⟩

/-- C7 counterexample: on a failed fetch, `crawlPage` leaves the crawler
state completely unchanged — in particular the console output gains no line
whatsoever, so the failure is never reported, contrary to the claim that
the worker reports it.  (Counter and queue are indeed untouched.) -/
theorem fetch_failure_silent_cex :
    WebCrawler.crawlPage (fun _ => none) (WebCrawler.mkCrawler 1) "http://x"
      = WebCrawler.mkCrawler 1
    ∧ (WebCrawler.crawlPage (fun _ => none) (WebCrawler.mkCrawler 1) "http://x").output
        = (WebCrawler.mkCrawler 1).output := by
  exact ⟨rfl, rfl⟩

/-- C7 amended: on a failed fetch the worker silently abandons the URL — the
whole crawler state, console output included, is unchanged, so no counter is
incremented and no link is pushed — and the loop continues; in the
seed-fetch-fails scenario the worker pops and abandons the seed, leaving
`pagesProcessed` at 0, the queue empty and the output silent, and after
`stop()` the worker exits cleanly. -/
theorem fetch_failure_amended :
    (∀ (fetch : String → Option String) (c : WebCrawler) (url : String),
        fetch url = none → WebCrawler.crawlPage fetch c url = c)
    ∧ ((WebCrawler.worker (fun _ => none) 1
          (WebCrawler.start (WebCrawler.mkCrawler 1) "http://seed")).1.pagesProcessed = 0)
    ∧ (WebCrawler.getQueueSize (WebCrawler.worker (fun _ => none) 1
          (WebCrawler.start (WebCrawler.mkCrawler 1) "http://seed")).1 = 0)
    ∧ ((WebCrawler.worker (fun _ => none) 1
          (WebCrawler.start (WebCrawler.mkCrawler 1) "http://seed")).1.output = [])
    ∧ (WebCrawler.worker (fun _ => none) 1
          (WebCrawler.stop (WebCrawler.worker (fun _ => none) 1
            (WebCrawler.start (WebCrawler.mkCrawler 1) "http://seed")).1)
        = (WebCrawler.stop (WebCrawler.worker (fun _ => none) 1
            (WebCrawler.start (WebCrawler.mkCrawler 1) "http://seed")).1,
           some ExitReason.notRunning)) := by
  refine ⟨?_, by decide, by decide, by decide, by decide⟩
  intro fetch c url h
  simp [WebCrawler.crawlPage, h]

/-- C7 witness: the amended no-op clause applied to a concrete failing fetch. -/
theorem fetch_failure_amended_witness :
    WebCrawler.crawlPage (fun _ => none) (WebCrawler.mkCrawler 3) "http://y"
      = WebCrawler.mkCrawler 3 := by
  exact fetch_failure_amended.1 (fun _ => none) (WebCrawler.mkCrawler 3) "http://y" rfl

/-- C8: the pages-processed counter is bumped by exactly one on each
successful fetch and by nothing on a failed one, is monotonically
non-decreasing across any worker run, is untouched by `start` and `stop`
(never reset), and `getPagesProcessed` reads exactly the counter.  In the
code the counter is a `std::atomic<size_t>`; the model renders that by
making each increment and each read one indivisible transition, so no read
observes a partially-updated value. -/
theorem pages_counter_monotone :
    (∀ (fetch : String → Option String) (c : WebCrawler) (url : String),
        (WebCrawler.crawlPage fetch c url).pagesProcessed
          = c.pagesProcessed + (match fetch url with | some _ => 1 | none => 0))
    ∧ (∀ (fetch : String → Option String) (n : Nat) (c : WebCrawler),
        c.pagesProcessed ≤ (WebCrawler.worker fetch n c).1.pagesProcessed)
    ∧ (∀ (c : WebCrawler) (url : String),
        (WebCrawler.start c url).pagesProcessed = c.pagesProcessed)
    ∧ (∀ c : WebCrawler, (WebCrawler.stop c).pagesProcessed = c.pagesProcessed)
    ∧ (∀ c : WebCrawler, WebCrawler.getPagesProcessed c = c.pagesProcessed) := by
  have hcrawl : ∀ (fetch : String → Option String) (c : WebCrawler) (url : String),
      (WebCrawler.crawlPage fetch c url).pagesProcessed
        = c.pagesProcessed + (match fetch url with | some _ => 1 | none => 0) := by
    intro fetch c url
    cases hf : fetch url <;> simp [WebCrawler.crawlPage, hf]
  refine ⟨hcrawl, ?_, ?_, ?_, ?_⟩
  · intro fetch n
    induction n with
    | zero => intro c; exact Nat.le_refl _
    | succ n ih =>
      intro c
      obtain ⟨cq, crun, cp, co, cw, ct⟩ := c
      cases crun
      · simp [WebCrawler.worker]
      · rcases hp : URLQueue.pop cq with ⟨q2, pr⟩
        cases pr with
        | delivered u =>
          have hstep : WebCrawler.worker fetch (n + 1) (WebCrawler.mk cq true cp co cw ct)
              = WebCrawler.worker fetch n
                  (WebCrawler.crawlPage fetch (WebCrawler.mk q2 true cp co cw ct) u) := by
            simp [WebCrawler.worker, hp]
          have h1 : cp ≤ (WebCrawler.crawlPage fetch
              (WebCrawler.mk q2 true cp co cw ct) u).pagesProcessed := by
            rw [hcrawl]
            exact Nat.le_add_right _ _
          rw [hstep]
          exact Nat.le_trans h1 (ih _)
        | closedEmpty =>
          simp [WebCrawler.worker, hp]
        | blocked =>
          have hstep : WebCrawler.worker fetch (n + 1) (WebCrawler.mk cq true cp co cw ct)
              = WebCrawler.worker fetch n (WebCrawler.mk cq true cp co cw ct) := by
            simp [WebCrawler.worker, hp]
          rw [hstep] at *
          exact ih _
  · intro c url; rfl
  · intro c; rfl
  · intro c; rfl

/-- C5: the specification scenario — a body with an absolute anchor and a
root-relative anchor, fetched from base URL `http://example.com` — yields
exactly the absolute link as-is followed by the resolved root-relative
link, in body order. -/
theorem extract_scenario :
    WebCrawler.extractLinks "<a href=\"http://example.com/a\"><a href=\"/b\">"
        "http://example.com"
      = ["http://example.com/a", "http://example.com/b"] := by
  decide

theorem linkStep_emit (baseUrl : String) (links : List String) (link : String) :
    linkStep baseUrl links link = links ++ (specEmit baseUrl link).toList := by
  unfold linkStep specEmit
  by_cases h1 : startsWithL link "http"
  · simp [h1]
  · by_cases h2 : startsWithL link "/" <;> simp [h1, h2]

theorem foldl_linkStep (baseUrl : String) :
    ∀ (ls : List String) (acc : List String),
      ls.foldl (linkStep baseUrl) acc = acc ++ ls.filterMap (specEmit baseUrl) := by
  intro ls
  induction ls with
  | nil => intro acc; simp
  | cons x xs ih =>
    intro acc
    rw [List.foldl_cons, ih, linkStep_emit]
    cases h : specEmit baseUrl x <;> simp [List.filterMap_cons, h]

/-- C6: `extractLinks` emits exactly the filter-map of the specification's
emission rule over the regex captures: a target with the `http` prefix is
emitted as-is, a target with a leading path separator is emitted as the base
URL's scheme-and-authority prefix concatenated with the target, and any
other target — relative path, fragment, or non-HTTP scheme, none of which
carry either prefix — is dropped and contributes nothing. -/
theorem extract_emit_rule :
    ∀ (html baseUrl : String),
      (WebCrawler.extractLinks html baseUrl
          = ((scanMatches html.data).map String.mk).filterMap (specEmit baseUrl))
      ∧ (∀ t : String, startsWithL t "http" = true → specEmit baseUrl t = some t)
      ∧ (∀ t : String, startsWithL t "http" = false → startsWithL t "/" = true →
          specEmit baseUrl t = some (domainOf baseUrl ++ t))
      ∧ (∀ t : String, startsWithL t "http" = false → startsWithL t "/" = false →
          specEmit baseUrl t = none) := by
  intro html baseUrl
  refine ⟨?_, ?_, ?_, ?_⟩
  · unfold WebCrawler.extractLinks
    rw [foldl_linkStep]
    simp
  · intro t h; simp [specEmit, h]
  · intro t h1 h2; simp [specEmit, h1, h2]
  · intro t h1 h2; simp [specEmit, h1, h2]

/-- C6 witness: the rule applied to a body whose targets are a fragment, a
relative path and a non-HTTP scheme — every capture is dropped — plus
concrete dropped targets of each form. -/
theorem extract_emit_rule_witness :
    (WebCrawler.extractLinks "<a href=\"#f\"><a href=\"x/y\"><a href=\"ftp://z\">"
        "http://example.com"
      = ((scanMatches ("<a href=\"#f\"><a href=\"x/y\"><a href=\"ftp://z\">".data)).map
          String.mk).filterMap (specEmit "http://example.com"))
    ∧ specEmit "http://example.com" "#frag" = none
    ∧ specEmit "http://example.com" "rel/p" = none
    ∧ specEmit "http://example.com" "mailto:a@b" = none := by
  have h := extract_emit_rule "<a href=\"#f\"><a href=\"x/y\"><a href=\"ftp://z\">"
    "http://example.com"
  exact ⟨h.1, h.2.2.2 "#frag" (by decide) (by decide),
         h.2.2.2 "rel/p" (by decide) (by decide),
         h.2.2.2 "mailto:a@b" (by decide) (by decide)⟩

/-- Crawler that has already crawled `http://a` and is still running, used
for the restart claim. -/
def crawledOnce : WebCrawler :=
  { queue := { urls := [], seen := ["http://a"], done := false },
    running := true, pagesProcessed := 1, output := ["Crawled: http://a"],
    workers := 1, threadCount := 1 }

/-- C10 counterexample: after `stop()` followed by `start("http://b")` with a
never-seen seed, the first `pop` of a newly launched worker delivers the new
seed with `ok = true` rather than `ok = false`, and one worker iteration
with a succeeding fetch raises `pagesProcessed` from 1 to 2 — the restart
performs a real crawl, not a no-op. -/
theorem restart_not_noop_cex :
    (URLQueue.pop (WebCrawler.start (WebCrawler.stop crawledOnce) "http://b").queue).2
      = PopResult.delivered "http://b"
    ∧ (WebCrawler.worker (fun _ => some "") 1
        (WebCrawler.start (WebCrawler.stop crawledOnce) "http://b")).1.pagesProcessed = 2 := by
  refine ⟨by decide, by decide⟩

/-- C10 amended: `start` after `stop` reuses the closed frontier — `closed`
stays true and the discovered set is retained, so the seed is enqueued only
if never seen before (a seen seed leaves the queue exactly as `finish` left
it), and `pop` answers `ok = false` exactly on an empty closed queue; but
because `push` ignores the closed flag, a never-seen seed is enqueued and —
on an otherwise drained queue — delivered by the next `pop`, so a restart
crawls the not-yet-discovered URLs rather than performing no crawl. -/
theorem restart_amended :
    ∀ (c : WebCrawler) (url : String),
      ((WebCrawler.start (WebCrawler.stop c) url).queue.done = true)
      ∧ (url ∈ c.queue.seen →
          (WebCrawler.start (WebCrawler.stop c) url).queue = URLQueue.finish c.queue)
      ∧ (url ∉ c.queue.seen →
          (WebCrawler.start (WebCrawler.stop c) url).queue.urls = c.queue.urls ++ [url]
          ∧ (WebCrawler.start (WebCrawler.stop c) url).queue.seen = url :: c.queue.seen)
      ∧ (url ∉ c.queue.seen → c.queue.urls = [] →
          (URLQueue.pop (WebCrawler.start (WebCrawler.stop c) url).queue).2
            = PopResult.delivered url) := by
  intro c url
  refine ⟨?_, ?_, ?_, ?_⟩
  · by_cases h : url ∈ c.queue.seen <;>
      simp [WebCrawler.start, WebCrawler.stop, URLQueue.push, URLQueue.finish, h]
  · intro h
    simp [WebCrawler.start, WebCrawler.stop, URLQueue.push, URLQueue.finish, h]
  · intro h
    simp [WebCrawler.start, WebCrawler.stop, URLQueue.push, URLQueue.finish, h]
  · intro h hurls
    simp [WebCrawler.start, WebCrawler.stop, URLQueue.push, URLQueue.finish, h, hurls,
      URLQueue.pop]

/-- C10 witness: the amended statement applied to the concrete crawler and a
fresh seed. -/
theorem restart_amended_witness :
    ((WebCrawler.start (WebCrawler.stop crawledOnce) "http://c").queue.done = true)
    ∧ ((WebCrawler.start (WebCrawler.stop crawledOnce) "http://c").queue.urls
        = crawledOnce.queue.urls ++ ["http://c"])
    ∧ ((URLQueue.pop (WebCrawler.start (WebCrawler.stop crawledOnce) "http://c").queue).2
        = PopResult.delivered "http://c") := by
  have h := restart_amended crawledOnce "http://c"
  exact ⟨h.1, (h.2.2.1 (by decide)).1, h.2.2.2 (by decide) rfl⟩

theorem matchQuoted_length {cs cap r : List Char}
    (h : matchQuoted cs = some (cap, r)) : r.length < cs.length := by
  cases cs with
  | nil => simp [matchQuoted] at h
  | cons q1 rest =>
    by_cases hq : isQuoteChar q1
    · simp only [matchQuoted, hq, if_true] at h
      cases hd : rest.dropWhile (fun c => !(isQuoteChar c)) with
      | nil => rw [hd] at h; simp at h
      | cons q2 rest2 =>
        rw [hd] at h
        by_cases hc : (rest.takeWhile (fun c => !(isQuoteChar c))).isEmpty
        · simp [hc] at h
        · by_cases hq2 : isQuoteChar q2
          · simp only [hc, hq2, if_true, if_false, Bool.false_eq_true,
              Option.some.injEq, Prod.mk.injEq] at h
            obtain ⟨-, hr⟩ := h
            have hsplit : rest.takeWhile (fun c => !(isQuoteChar c))
                ++ rest.dropWhile (fun c => !(isQuoteChar c)) = rest :=
              List.takeWhile_append_dropWhile _ _
            have hlen := congrArg List.length hsplit
            rw [hd] at hlen
            simp only [List.length_append, List.length_cons] at hlen
            subst hr
            simp [List.length_cons]
            omega
          · simp [hc, hq2] at h
    · simp [matchQuoted, hq] at h

theorem tryGap_length {cs cap r : List Char} :
    ∀ n, tryGap cs n = some (cap, r) → r.length < cs.length := by
  intro n
  induction n with
  | zero => intro h; simp [tryGap] at h
  | succ n ih =>
    intro h
    simp only [tryGap] at h
    by_cases hall : (cs.take (n + 1)).all (fun c => c ≠ '>')
    · rw [if_pos hall] at h
      cases hdh : dropHref (cs.drop (n + 1)) with
      | none => rw [hdh] at h; exact ih h
      | some afterHref =>
        rw [hdh] at h
        have hred : (match matchQuoted afterHref with
            | some r => some r
            | none => tryGap cs n) = some (cap, r) := h
        cases hmq : matchQuoted afterHref with
        | none =>
          rw [hmq] at hred
          exact ih hred
        | some p =>
          rw [hmq] at hred
          have hp : some p = some (cap, r) := hred
          obtain rfl : p = (cap, r) := by injection hp
          have h1 : r.length < afterHref.length := matchQuoted_length hmq
          have h2 : afterHref = (cs.drop (n + 1)).drop 5 := by
            simp only [dropHref] at hdh
            by_cases hp : ("href=".data).isPrefixOf (cs.drop (n + 1))
            · simpa [hp] using hdh.symm
            · simp [hp] at hdh
          have h3 : afterHref.length ≤ cs.length := by
            rw [h2]
            simp [List.length_drop]
          omega
    · rw [if_neg hall] at h
      exact ih h

theorem matchAnchorAt_length {cs cap r : List Char}
    (h : matchAnchorAt cs = some (cap, r)) : r.length < cs.length := by
  unfold matchAnchorAt at h
  split at h
  next rest =>
    have := tryGap_length rest.length h
    simp only [List.length_cons]
    omega
  next => simp at h

/-- Fuel adequacy of the regex scan: because every regex match consumes at
least one character of the input, running the scan with any fuel at least
the input length gives the same capture list as `scanMatches` — the bounded
recursion is a faithful rendering of the unbounded `sregex_iterator` loop. -/
theorem scanMatchesF_fuel :
    ∀ (n : Nat) (cs : List Char), cs.length ≤ n →
      scanMatchesF n cs = scanMatches cs := by
  intro n
  induction n using Nat.strong_induction_on with
  | _ n ih =>
    intro cs hle
    cases n with
    | zero =>
      have hnil : cs = [] := List.length_eq_zero.mp (Nat.le_zero.mp hle)
      subst hnil
      rfl
    | succ n =>
      cases cs with
      | nil => simp [scanMatches, scanMatchesF]
      | cons c rest =>
        have hr : rest.length ≤ n := by
          simpa [List.length_cons, Nat.succ_le_succ_iff] using hle
        cases hm : matchAnchorAt (c :: rest) with
        | some p =>
          obtain ⟨cap, after⟩ := p
          have hlt : after.length < rest.length + 1 := by
            simpa [List.length_cons] using matchAnchorAt_length hm
          have e1 : scanMatchesF (n + 1) (c :: rest) = cap :: scanMatchesF n after := by
            simp [scanMatchesF, hm]
          have e2 : scanMatches (c :: rest) = cap :: scanMatchesF rest.length after := by
            simp [scanMatches, List.length_cons, scanMatchesF, hm]
          rw [e1, e2]
          have hafter_n : after.length ≤ n := by omega
          have hafter_r : after.length ≤ rest.length := by omega
          rw [ih n (Nat.lt_succ_self n) after hafter_n]
          rw [ih rest.length (Nat.lt_succ_of_le hr) after hafter_r]
        | none =>
          have e1 : scanMatchesF (n + 1) (c :: rest) = scanMatchesF n rest := by
            simp [scanMatchesF, hm]
          have e2 : scanMatches (c :: rest) = scanMatchesF rest.length rest := by
            simp [scanMatches, List.length_cons, scanMatchesF, hm]
          rw [e1, e2]
          rw [ih n (Nat.lt_succ_self n) rest hr]
          rw [ih rest.length (Nat.lt_succ_of_le hr) rest (Nat.le_refl _)]
